import Mathlib

/-!
# Verification of the `spyce` 3D vector/matrix algebra layer

Shallow embedding of `src/spyce/vector.py` over the real numbers.  Python
floats are idealised as reals; a Python float division, which raises
`ZeroDivisionError` on a zero divisor, is embedded as an `Option`-valued
division (`pyDiv`), so that a raised exception appears as `none`.

The Python `Vector` class destructures each operand into exactly three
components (`u1, u2, u3 = u`); we embed the well-formed values as a structure
with three real fields.  The Python `Matrix` class is a list of rows; since
`Matrix.__sub__` produces a *flat* list of scalars, matrices are embedded as
`List (List ℝ)` and the subtraction result as `List ℝ`, exactly as built by
the source's comprehension.

To express the purity/no-mutation contract, an explicit object store is
modelled: Python objects live in an append-only heap addressed by index, and
each method of the source allocates its freshly constructed return value (the
source's `__iadd__`/`__isub__` build a fresh `Vector(...)` instead of calling
the inherited in-place list mutation).
-/

namespace Spyce

/-- Models `math.fsum`: exact (compensated) summation of a list of floats,
which over the reals is the exact sum. -/
def fsum (xs : List ℝ) : ℝ := xs.sum

/-- Models Python float division: `a / b` raises `ZeroDivisionError` when
`b == 0`, embedded as `none`. -/
noncomputable def pyDiv (a b : ℝ) : Option ℝ :=
  if b = 0 then none else some (a / b)

/-- Well-formed `vector.Vector` values: a list of exactly three components. -/
structure Vector where
  x : ℝ
  y : ℝ
  z : ℝ

instance : Inhabited Vector := ⟨⟨0, 0, 0⟩⟩

/-- Models `Vector.dot`: `math.fsum([u1*v1, u2*v2, u3*v3])`. -/
def Vector.dot (u v : Vector) : ℝ :=
  fsum [u.x * v.x, u.y * v.y, u.z * v.z]

/-- Models `Vector.norm`: `math.sqrt(u.dot(u))`. -/
noncomputable def Vector.norm (u : Vector) : ℝ :=
  Real.sqrt (u.dot u)

/-- Models `Vector.cross`: the standard 3D cross product. -/
def Vector.cross (u v : Vector) : Vector :=
  ⟨u.y * v.z - u.z * v.y, u.z * v.x - u.x * v.z, u.x * v.y - u.y * v.x⟩

/-- Models `Vector.angle`: `r = u.dot(v)/u.norm()/v.norm()`, clamped by
`max(-1, min(1, r))`, then `math.acos`.  The two float divisions may raise,
hence the `Option`; after the clamp `acos` is always in-domain, so it is
embedded as the total `Real.arccos`. -/
noncomputable def Vector.angle (u v : Vector) : Option ℝ :=
  (pyDiv (u.dot v) u.norm).bind fun r₁ =>
  (pyDiv r₁ v.norm).map fun r => Real.arccos (max (-1) (min 1 r))

/-- The clamped cosine argument `max(-1, min(1, u.dot(v)/u.norm()/v.norm()))`
that `Vector.angle` passes to `acos` (with real division in place of the
checked float division). -/
noncomputable def Vector.clampedCosine (u v : Vector) : ℝ :=
  max (-1) (min 1 (u.dot v / u.norm / v.norm))

/-- Models `Vector.oriented_angle` with an explicit `normal` argument:
computes the geometric angle, then negates it when
`normal.dot(u.cross(v)) < 0`. -/
noncomputable def Vector.oriented_angle (u v n : Vector) : Option ℝ :=
  (u.angle v).map fun g => if n.dot (u.cross v) < 0 then -g else g

/-- Models `Vector.oriented_angle` called with `normal=None`: the source
substitutes the default normal `Vector([0, 0, 1])`. -/
noncomputable def Vector.oriented_angleDefault (u v : Vector) : Option ℝ :=
  u.oriented_angle v ⟨0, 0, 1⟩

/-- Models `Vector.__add__`. -/
def Vector.add (u v : Vector) : Vector :=
  ⟨u.x + v.x, u.y + v.y, u.z + v.z⟩

/-- Models `Vector.__iadd__`: builds a fresh `Vector([x+a, y+b, z+c])` (it
does not extend `u` in place as the inherited `list.__iadd__` would). -/
def Vector.iadd (u v : Vector) : Vector :=
  ⟨u.x + v.x, u.y + v.y, u.z + v.z⟩

/-- Models `Vector.__sub__`. -/
def Vector.sub (u v : Vector) : Vector :=
  ⟨u.x - v.x, u.y - v.y, u.z - v.z⟩

/-- Models `Vector.__isub__`: builds a fresh `Vector([x-a, y-b, z-c])`. -/
def Vector.isub (u v : Vector) : Vector :=
  ⟨u.x - v.x, u.y - v.y, u.z - v.z⟩

/-- Models `Vector.__neg__`. -/
def Vector.neg (u : Vector) : Vector :=
  ⟨-u.x, -u.y, -u.z⟩

/-- Models `Vector.__mul__`: scalar multiplication. -/
def Vector.mul (u : Vector) (s : ℝ) : Vector :=
  ⟨u.x * s, u.y * s, u.z * s⟩

/-- Models `Vector.__div__`: componentwise float division by a scalar, which
raises on a zero divisor. -/
noncomputable def Vector.div (u : Vector) (s : ℝ) : Option Vector :=
  (pyDiv u.x s).bind fun a =>
  (pyDiv u.y s).bind fun b =>
  (pyDiv u.z s).map fun c => ⟨a, b, c⟩

/-- Models `Vector.__abs__`: `max(u)`, the maximum of the three components as
Python `max` computes it over the list `[x, y, z]`. -/
def Vector.abs (u : Vector) : ℝ :=
  max u.x (max u.y u.z)

/-- Modelled from the docstring's advertised "maximum metric (see Chebyshev
distance)": the maximum of the absolute values of the components.  Used only
to compare `Vector.abs` against what its docstring promises. -/
def chebyshevNorm (u : Vector) : ℝ :=
  max |u.x| (max |u.y| |u.z|)

/-- Models `Matrix.__sub__`: the comprehension
`[x-y for a, b in zip(A, B) for x, y in zip(a, b)]` — note that it produces a
*flat* `Matrix` whose elements are the componentwise differences, not a list
of rows. -/
def Matrix.sub (A B : List (List ℝ)) : List ℝ :=
  (A.zip B).flatMap fun ab => (ab.1.zip ab.2).map fun xy => xy.1 - xy.2

/-- Models the matrix-vector branch of `Matrix.__mul__` (also applied to each
row in the matrix-matrix branch): destructures the matrix into exactly 3 rows
of 3 entries and the operand into exactly 3 components, raising (`none`) on
any other shape. -/
def Matrix.mulVec (A : List (List ℝ)) (v : List ℝ) : Option (List ℝ) :=
  match A, v with
  | [[a, b, c], [d, e, f], [g, h, i]], [x, y, z] =>
      some [a * x + b * y + c * z, d * x + e * y + f * z, g * x + h * y + i * z]
  | _, _ => none

/-- Models the matrix-vector branch of `Matrix.__mul__` when the operand is a
well-formed three-component `Vector`. -/
def Matrix.mulVec3 (A : List (List ℝ)) (u : Vector) : Option Vector :=
  match A with
  | [[a, b, c], [d, e, f], [g, h, i]] =>
      some ⟨a * u.x + b * u.y + c * u.z, d * u.x + e * u.y + f * u.z,
            g * u.x + h * u.y + i * u.z⟩
  | _ => none

/-- Models `Matrix(zip(*x))`: the transpose built in the matrix-matrix branch
of `Matrix.__mul__`.  Only the 3x3 shape is exercised by the source; on any
other shape the subsequent row destructuring in `Matrix.mulVec` fails, which
the junk value `[]` reproduces (`Matrix.mulVec [] v = none`). -/
def pyTranspose (A : List (List ℝ)) : List (List ℝ) :=
  match A with
  | [[a, b, c], [d, e, f], [g, h, i]] => [[a, d, g], [b, e, h], [c, f, i]]
  | _ => []

/-- Builds the list of a comprehension whose elements may raise: the first
raising element aborts the whole construction. -/
def seqOption : List (Option (List ℝ)) → Option (List (List ℝ))
  | [] => some []
  | o :: os => o.bind fun r => (seqOption os).map fun rs => r :: rs

/-- Models the matrix-matrix branch of `Matrix.__mul__`:
`m = Matrix(zip(*x)); Matrix([m*row for row in self])`, where each `m*row`
takes the matrix-vector branch. -/
def Matrix.mul (A B : List (List ℝ)) : Option (List (List ℝ)) :=
  seqOption (A.map fun row => Matrix.mulVec (pyTranspose B) row)

/-- Models `Matrix.identity()`. -/
def Matrix.identity : List (List ℝ) :=
  [[1, 0, 0], [0, 1, 0], [0, 0, 1]]

/-- Models `Matrix.rotation(angle, x, y, z)`: Rodrigues' rotation matrix
around the axis `(x, y, z)`, normalised internally by the float divisions
`x/d`, `y/d`, `z/d` with `d = math.sqrt(x*x + y*y + z*z)` — which raise
(`none`) when the axis has zero length. -/
noncomputable def Matrix.rotation (angle x y z : ℝ) : Option (List (List ℝ)) :=
  let s := Real.sin angle
  let c := Real.cos angle
  let d := Real.sqrt (x * x + y * y + z * z)
  (pyDiv x d).bind fun xn =>
  (pyDiv y d).bind fun yn =>
  (pyDiv z d).map fun zn =>
    [[xn * xn * (1 - c) + c, xn * yn * (1 - c) - zn * s, xn * zn * (1 - c) + yn * s],
     [yn * xn * (1 - c) + zn * s, yn * yn * (1 - c) + c, yn * zn * (1 - c) - xn * s],
     [zn * xn * (1 - c) - yn * s, zn * yn * (1 - c) + xn * s, zn * zn * (1 - c) + c]]

/-- Models `Matrix.from_euler_angles(alpha, beta, gamma)`: the fixed Z1X2Z3
Euler rotation-matrix table. -/
noncomputable def Matrix.from_euler_angles (alpha beta gamma : ℝ) : List (List ℝ) :=
  let c1 := Real.cos alpha
  let s1 := Real.sin alpha
  let c2 := Real.cos beta
  let s2 := Real.sin beta
  let c3 := Real.cos gamma
  let s3 := Real.sin gamma
  [[c1 * c3 - c2 * s1 * s3, -c1 * s3 - c2 * c3 * s1, s1 * s2],
   [c3 * s1 + c1 * c2 * s3, c1 * c2 * c3 - s1 * s3, -c1 * s2],
   [s2 * s3, c3 * s2, c2]]

/-! ## Object-store model for the purity contract

Python objects live in a heap; an address is an index into an append-only
list.  Each `Obj` is the payload of one `Vector` or `Matrix` instance (a
`Matrix` instance may hold rows, or the flat scalars that `Matrix.__sub__`
builds). -/

/-- Payload of one heap-allocated Python object of the vector layer. -/
inductive Obj
  | vec (v : Vector)
  | mat (rows : List (List ℝ))
  | flat (entries : List ℝ)

instance : Inhabited Obj := ⟨Obj.vec default⟩

/-- Reads a `Vector` operand at a heap address. -/
def getVec (h : List Obj) (i : ℕ) : Vector :=
  match h.getD i default with
  | Obj.vec v => v
  | _ => default

/-- Reads a row-`Matrix` operand at a heap address. -/
def getMat (h : List Obj) (i : ℕ) : List (List ℝ) :=
  match h.getD i default with
  | Obj.mat m => m
  | _ => []

/-- Allocates a freshly constructed object: appends it to the store and
returns its (fresh) address. -/
def allocObj (h : List Obj) (o : Obj) : List Obj × ℕ :=
  (h ++ [o], h.length)

/-- Heap semantics of `u + v` (`Vector.__add__`): reads both operands,
allocates the fresh result `Vector`. -/
def Vector.addH (h : List Obj) (i j : ℕ) : List Obj × ℕ :=
  allocObj h (Obj.vec ((getVec h i).add (getVec h j)))

/-- Heap semantics of `u += v` (`Vector.__iadd__`): the source builds a fresh
`Vector([x+a, y+b, z+c])`; the name is rebound, the operand object is not
touched. -/
def Vector.iaddH (h : List Obj) (i j : ℕ) : List Obj × ℕ :=
  allocObj h (Obj.vec ((getVec h i).iadd (getVec h j)))

/-- Heap semantics of `u - v` (`Vector.__sub__`). -/
def Vector.subH (h : List Obj) (i j : ℕ) : List Obj × ℕ :=
  allocObj h (Obj.vec ((getVec h i).sub (getVec h j)))

/-- Heap semantics of `u -= v` (`Vector.__isub__`): a fresh `Vector`, no
in-place update. -/
def Vector.isubH (h : List Obj) (i j : ℕ) : List Obj × ℕ :=
  allocObj h (Obj.vec ((getVec h i).isub (getVec h j)))

/-- Heap semantics of `-u` (`Vector.__neg__`). -/
def Vector.negH (h : List Obj) (i : ℕ) : List Obj × ℕ :=
  allocObj h (Obj.vec (getVec h i).neg)

/-- Heap semantics of `u * s` (`Vector.__mul__`). -/
def Vector.mulH (h : List Obj) (i : ℕ) (s : ℝ) : List Obj × ℕ :=
  allocObj h (Obj.vec ((getVec h i).mul s))

/-- Heap semantics of `u.cross(v)`. -/
def Vector.crossH (h : List Obj) (i j : ℕ) : List Obj × ℕ :=
  allocObj h (Obj.vec ((getVec h i).cross (getVec h j)))

/-- Heap semantics of `u / s` (`Vector.__div__`): allocates on success, and on
a raised `ZeroDivisionError` the construction aborts with the heap untouched. -/
noncomputable def Vector.divH (h : List Obj) (i : ℕ) (s : ℝ) : List Obj × Option ℕ :=
  match (getVec h i).div s with
  | some r => ((allocObj h (Obj.vec r)).1, some (allocObj h (Obj.vec r)).2)
  | none => (h, none)

/-- Heap semantics of `u.dot(v)`: returns a float and touches no object. -/
def Vector.dotH (h : List Obj) (i j : ℕ) : List Obj × ℝ :=
  (h, (getVec h i).dot (getVec h j))

/-- Heap semantics of `u.norm()`: returns a float and touches no object. -/
noncomputable def Vector.normH (h : List Obj) (i : ℕ) : List Obj × ℝ :=
  (h, (getVec h i).norm)

/-- Heap semantics of `u.angle(v)`: returns a float (or raises) and touches
no object. -/
noncomputable def Vector.angleH (h : List Obj) (i j : ℕ) : List Obj × Option ℝ :=
  (h, (getVec h i).angle (getVec h j))

/-- Heap semantics of `u.oriented_angle(v, n)`: returns a float (or raises);
the intermediate `u.cross(v)` and default normal are garbage after the call
and no reachable object changes. -/
noncomputable def Vector.oriented_angleH (h : List Obj) (i j k : ℕ) : List Obj × Option ℝ :=
  (h, (getVec h i).oriented_angle (getVec h j) (getVec h k))

/-- Heap semantics of `u.__abs__()`: returns a float and touches no object. -/
def Vector.absH (h : List Obj) (i : ℕ) : List Obj × ℝ :=
  (h, (getVec h i).abs)

/-- Heap semantics of `A - B` (`Matrix.__sub__`): allocates the fresh flat
`Matrix` of differences. -/
def Matrix.subH (h : List Obj) (i j : ℕ) : List Obj × ℕ :=
  allocObj h (Obj.flat (Matrix.sub (getMat h i) (getMat h j)))

/-- Heap semantics of `A * B` (matrix-matrix `Matrix.__mul__`): allocates on
success; a raised shape error leaves the heap untouched. -/
def Matrix.mulH (h : List Obj) (i j : ℕ) : List Obj × Option ℕ :=
  match Matrix.mul (getMat h i) (getMat h j) with
  | some m => ((allocObj h (Obj.mat m)).1, some (allocObj h (Obj.mat m)).2)
  | none => (h, none)

/-- Heap semantics of `A * u` (matrix-vector `Matrix.__mul__`): allocates the
fresh result `Vector` on success. -/
def Matrix.mulVec3H (h : List Obj) (i j : ℕ) : List Obj × Option ℕ :=
  match Matrix.mulVec3 (getMat h i) (getVec h j) with
  | some r => ((allocObj h (Obj.vec r)).1, some (allocObj h (Obj.vec r)).2)
  | none => (h, none)

/-- Heap semantics of the constructor `Matrix.rotation(angle, x, y, z)`:
reads no object, allocates the fresh matrix on success. -/
noncomputable def Matrix.rotationH (h : List Obj) (angle x y z : ℝ) : List Obj × Option ℕ :=
  match Matrix.rotation angle x y z with
  | some m => ((allocObj h (Obj.mat m)).1, some (allocObj h (Obj.mat m)).2)
  | none => (h, none)

/-- Heap semantics of the constructor `Matrix.from_euler_angles`: reads no
object, allocates the fresh matrix. -/
noncomputable def Matrix.from_euler_anglesH (h : List Obj) (alpha beta gamma : ℝ) :
    List Obj × ℕ :=
  allocObj h (Obj.mat (Matrix.from_euler_angles alpha beta gamma))

/-! ## Spec-modelled Orbit layer

The `Orbit` class (`orbit.py`) is not among the available sources — only its
tests and callers are — so, following the specification, the parts the
round-trip claim needs are modelled here from §4.2's own description.  Every
such definition carries a `Modelled from the spec:` doc comment naming what
is missing.  Floats are idealised as reals and the Newton–Raphson Kepler
solver signals non-convergence as `none`. -/

/-- Modelled from the spec: the canonical element set of the missing
`orbit.py` `Orbit` class (§3); the primary body is represented by its
gravitational parameter `mu`. -/
structure Orbit where
  mu : ℝ
  periapsis : ℝ
  eccentricity : ℝ
  inclination : ℝ
  longitude_of_ascending_node : ℝ
  argument_of_periapsis : ℝ
  epoch : ℝ
  mean_anomaly_at_epoch : ℝ

/-- Modelled from the spec: the derived `semi_major_axis` of the missing
`orbit.py`, inverting `periapsis = a*(1-e)` (§4.2 `from_semi_major_axis`). -/
noncomputable def Orbit.semi_major_axis (o : Orbit) : ℝ :=
  o.periapsis / (1 - o.eccentricity)

/-- The semi-latus rectum `a*(1-e^2)` of the conic equation
`r = a*(1-e^2)/(1+e*cos(nu))` (§4.2 `position_t`). -/
noncomputable def Orbit.semi_latus_rectum (o : Orbit) : ℝ :=
  o.semi_major_axis * (1 - o.eccentricity ^ 2)

/-- Modelled from the spec: the derived `mean_motion` of the missing
`orbit.py`, from `period = 2*pi*sqrt(a^3/mu)` (§4.2), regime-uniformly
`sqrt(mu/|a|^3)`. -/
noncomputable def Orbit.mean_motion (o : Orbit) : ℝ :=
  Real.sqrt (o.mu / |o.semi_major_axis| ^ 3)

/-- Modelled from the spec: `mean_anomaly(t) = mean_anomaly_at_epoch +
mean_motion*(t - epoch)` of the missing `orbit.py` (§4.2). -/
noncomputable def Orbit.mean_anomaly (o : Orbit) (t : ℝ) : ℝ :=
  o.mean_anomaly_at_epoch + o.mean_motion * (t - o.epoch)

/-- Modelled from the spec: the Kepler-solver convergence tolerance of the
missing `orbit.py`, "a fixed small tolerance (≈1e-12 absolute)" (§4.2). -/
noncomputable def keplerTol : ℝ := 1 / 10 ^ 12

/-- One Newton–Raphson step on the elliptic Kepler equation
`M = E - e*sin(E)`. -/
noncomputable def newtonStepE (e M E : ℝ) : ℝ :=
  E - (E - e * Real.sin E - M) / (1 - e * Real.cos E)

/-- Modelled from the spec: the bounded elliptic Newton iteration of the
missing `orbit.py` — return the current iterate once its absolute residual
is within `keplerTol`, step otherwise, and signal non-convergence (`none`)
when the iteration budget is exhausted (§4.2/§5: "bound iterations, e.g.
100, and signal non-convergence rather than loop unboundedly"). -/
noncomputable def solveLoopE (e M : ℝ) : ℝ → ℕ → Option ℝ
  | _, 0 => none
  | E, k + 1 =>
      if |E - e * Real.sin E - M| ≤ keplerTol then some E
      else solveLoopE e M (newtonStepE e M E) k

/-- Modelled from the spec: the elliptic Kepler solver of the missing
`orbit.py`, Newton–Raphson with initial guess `E0 = M` (§4.2). -/
noncomputable def solveE (e M : ℝ) : Option ℝ :=
  solveLoopE e M M 100

/-- One Newton–Raphson step on the hyperbolic Kepler equation
`M = e*sinh(H) - H`. -/
noncomputable def newtonStepH (e M H : ℝ) : ℝ :=
  H - (e * Real.sinh H - H - M) / (e * Real.cosh H - 1)

/-- Modelled from the spec: the bounded hyperbolic Newton iteration of the
missing `orbit.py`, residual-checked like `solveLoopE`. -/
noncomputable def solveLoopH (e M : ℝ) : ℝ → ℕ → Option ℝ
  | _, 0 => none
  | H, k + 1 =>
      if |e * Real.sinh H - H - M| ≤ keplerTol then some H
      else solveLoopH e M (newtonStepH e M H) k

/-- Modelled from the spec: the hyperbolic Kepler solver of the missing
`orbit.py`, Newton–Raphson from the high-eccentricity-safe seed
`H0 = sign(M)*ln(2*|M|/e + 1.8)` (§4.2). -/
noncomputable def solveH (e M : ℝ) : Option ℝ :=
  solveLoopH e M (Real.sign M * Real.log (2 * |M| / e + 1.8)) 100

/-- Modelled from the spec: the closed-form eccentric-to-true anomaly
conversion of the missing `orbit.py` (§4.2, the half-angle relation written
in its `arccos` form, total over ℝ and agreeing with the half-angle tangent
formula on its domain): `cos(nu) = (cos E - e)/(1 - e*cos E)`, signed like
`sin E`. -/
noncomputable def nuFromE (e E : ℝ) : ℝ :=
  (if Real.sin E < 0 then -1 else 1) *
    Real.arccos ((Real.cos E - e) / (1 - e * Real.cos E))

/-- Modelled from the spec: the hyperbolic-to-true anomaly conversion of the
missing `orbit.py` (§4.2): `cos(nu) = (e - cosh H)/(e*cosh H - 1)`, signed
like `sinh H`. -/
noncomputable def nuFromH (e H : ℝ) : ℝ :=
  (if Real.sinh H < 0 then -1 else 1) *
    Real.arccos ((e - Real.cosh H) / (e * Real.cosh H - 1))

/-- Rotation about the `+Z` axis as a linear map (a §4.1 Euler factor). -/
noncomputable def rotZ (phi : ℝ) (u : Vector) : Vector :=
  ⟨Real.cos phi * u.x - Real.sin phi * u.y,
   Real.sin phi * u.x + Real.cos phi * u.y, u.z⟩

/-- Rotation about the `+X` axis as a linear map (a §4.1 Euler factor). -/
noncomputable def rotX (phi : ℝ) (u : Vector) : Vector :=
  ⟨u.x, Real.cos phi * u.y - Real.sin phi * u.z,
   Real.sin phi * u.y + Real.cos phi * u.z⟩

/-- Modelled from the spec: the orbital-plane orientation of the missing
`orbit.py` — "the orientation matrix built from inclination /
longitude-of-ascending-node / argument-of-periapsis (via the Euler-angle
matrix in §4.1)" — the Z-X-Z rotation applied as a linear map (it agrees
with `Matrix.from_euler_angles`, see `orientation_matches_euler_matrix`). -/
noncomputable def Orbit.orientation (o : Orbit) (u : Vector) : Vector :=
  rotZ o.longitude_of_ascending_node
    (rotX o.inclination (rotZ o.argument_of_periapsis u))

/-- The in-plane position at true anomaly `nu`, distance
`r = l/(1 + e*cos(nu))` from the focus, rotated to the world frame (§4.2
`position_t`). -/
noncomputable def Orbit.position_nu (o : Orbit) (nu : ℝ) : Vector :=
  o.orientation
    ⟨o.semi_latus_rectum / (1 + o.eccentricity * Real.cos nu) * Real.cos nu,
     o.semi_latus_rectum / (1 + o.eccentricity * Real.cos nu) * Real.sin nu, 0⟩

/-- The perifocal velocity `sqrt(mu/l)*(-sin(nu), e + cos(nu), 0)` rotated to
the world frame (§4.2 `velocity_t`, "the standard perifocal-frame velocity
formulas"). -/
noncomputable def Orbit.velocity_nu (o : Orbit) (nu : ℝ) : Vector :=
  o.orientation
    ⟨Real.sqrt (o.mu / o.semi_latus_rectum) * -Real.sin nu,
     Real.sqrt (o.mu / o.semi_latus_rectum) * (o.eccentricity + Real.cos nu), 0⟩

/-- Modelled from the spec: `true_anomaly(t)` of the missing `orbit.py` —
solve Kepler's equation in the regime of the eccentricity and convert
(§4.2).  The parabolic branch (`e = 1`, Barker's equation) is outside every
claim about this model and is mapped to `none`. -/
noncomputable def Orbit.true_anomaly_t (o : Orbit) (t : ℝ) : Option ℝ :=
  if o.eccentricity < 1 then
    (solveE o.eccentricity (o.mean_anomaly t)).map (nuFromE o.eccentricity)
  else if 1 < o.eccentricity then
    (solveH o.eccentricity (o.mean_anomaly t)).map (nuFromH o.eccentricity)
  else none

/-- Modelled from the spec: `position_t(t)` of the missing `orbit.py` (§4.2);
`none` when the Kepler solver signals non-convergence. -/
noncomputable def Orbit.position_t (o : Orbit) (t : ℝ) : Option Vector :=
  (o.true_anomaly_t t).map o.position_nu

/-- Modelled from the spec: `velocity_t(t)` of the missing `orbit.py`
(§4.2). -/
noncomputable def Orbit.velocity_t (o : Orbit) (t : ℝ) : Option Vector :=
  (o.true_anomaly_t t).map o.velocity_nu

/-- Modelled from the spec: `from_state`'s true anomaly at the instant — the
angle from the eccentricity vector to the position, signed by `r·v`
(inbound/outbound), with the spec's degenerate convention when the
eccentricity vanishes (measured from the reference `+X` axis, signed by the
`y` component). -/
noncomputable def trueAnomalyFromState (ecc : ℝ) (evec r v : Vector) : ℝ :=
  if ecc = 0 then
    if r.y < 0 then -Real.arccos (r.x / r.norm)
    else Real.arccos (r.x / r.norm)
  else
    if r.dot v < 0 then -Real.arccos (evec.dot r / (ecc * r.norm))
    else Real.arccos (evec.dot r / (ecc * r.norm))

/-- Modelled from the spec: the "exact algebraic inverses" of the anomaly
conversions (§4.2), giving the mean anomaly at the instant from the true
anomaly: elliptic `E` from `cos E = (e + cos(nu))/(1 + e*cos(nu))`, signed
like `nu`, then `M = E - e*sin(E)`; hyperbolic `H` from
`sinh H = sqrt(e^2-1)*sin(nu)/(1 + e*cos(nu))` (the `arsinh` form, total and
branch-free), then `M = e*sinh(H) - H`. -/
noncomputable def meanAnomalyFromNu (ecc nu : ℝ) : ℝ :=
  if ecc < 1 then
    let E := (if nu < 0 then -1 else 1) *
      Real.arccos ((ecc + Real.cos nu) / (1 + ecc * Real.cos nu))
    E - ecc * Real.sin E
  else
    let H := Real.arsinh
      (Real.sqrt (ecc ^ 2 - 1) * Real.sin nu / (1 + ecc * Real.cos nu))
    ecc * Real.sinh H - H

/-- Modelled from the spec: `Orbit.from_state(primary, position, velocity,
instant)` of the missing `orbit.py` (§4.2): specific angular momentum
`h = r×v`, eccentricity vector `e_vec = (v×h)/mu - r/|r|`, node vector
`n = z×h`; eccentricity `|e_vec|`, inclination from `h`, semi-major axis
from vis-viva `1/(2/|r| - v·v/mu)` with `periapsis = a*(1-e)`; longitude of
ascending node and argument of periapsis with the spec's degenerate
conventions (fixed to 0 conventionally when undefined); `epoch := instant`
and the mean anomaly at the instant through the inverse anomaly chain. -/
noncomputable def Orbit.from_state (mu : ℝ) (r v : Vector) (instant : ℝ) : Orbit :=
  let h := r.cross v
  let evec := ((v.cross h).mul (1 / mu)).sub (r.mul (1 / r.norm))
  let ecc := evec.norm
  let nvec := Vector.cross ⟨0, 0, 1⟩ h
  let a := 1 / (2 / r.norm - v.dot v / mu)
  let lan := if nvec.norm = 0 then 0
    else if nvec.y < 0 then -Real.arccos (nvec.x / nvec.norm)
    else Real.arccos (nvec.x / nvec.norm)
  let argp := if ecc = 0 then 0
    else if nvec.norm = 0 then
      (if evec.y < 0 then -Real.arccos (evec.x / ecc)
       else Real.arccos (evec.x / ecc))
    else if evec.z < 0 then -Real.arccos (nvec.dot evec / (nvec.norm * ecc))
    else Real.arccos (nvec.dot evec / (nvec.norm * ecc))
  { mu := mu
    periapsis := a * (1 - ecc)
    eccentricity := ecc
    inclination := Real.arccos (h.z / h.norm)
    longitude_of_ascending_node := lan
    argument_of_periapsis := argp
    epoch := instant
    mean_anomaly_at_epoch :=
      meanAnomalyFromNu ecc (trueAnomalyFromState ecc evec r v) }

/-! ## Helper lemmas -/

theorem Vector.dot_eq (u v : Vector) :
    u.dot v = u.x * v.x + u.y * v.y + u.z * v.z := by
  simp [Vector.dot, fsum]
  ring

theorem Vector.dot_self_nonneg (u : Vector) : 0 ≤ u.dot u := by
  rw [Vector.dot_eq]
  have := mul_self_nonneg u.x
  have := mul_self_nonneg u.y
  have := mul_self_nonneg u.z
  linarith

theorem Vector.norm_pos (u : Vector) (hu : u ≠ ⟨0, 0, 0⟩) : 0 < u.norm := by
  have hne : ¬(u.x = 0 ∧ u.y = 0 ∧ u.z = 0) := by
    intro ⟨h1, h2, h3⟩
    exact hu (by cases u; simp_all)
  have hpos : 0 < u.x * u.x + u.y * u.y + u.z * u.z := by
    have h0 : (0:ℝ) ≤ u.x * u.x + u.y * u.y + u.z * u.z := by
      have := mul_self_nonneg u.x
      have := mul_self_nonneg u.y
      have := mul_self_nonneg u.z
      linarith
    rcases lt_or_eq_of_le h0 with h | h
    · exact h
    · exfalso
      have hx : u.x * u.x = 0 := by
        nlinarith [mul_self_nonneg u.x, mul_self_nonneg u.y, mul_self_nonneg u.z]
      have hy : u.y * u.y = 0 := by
        nlinarith [mul_self_nonneg u.x, mul_self_nonneg u.y, mul_self_nonneg u.z]
      have hz : u.z * u.z = 0 := by
        nlinarith [mul_self_nonneg u.x, mul_self_nonneg u.y, mul_self_nonneg u.z]
      exact hne ⟨mul_self_eq_zero.mp hx, mul_self_eq_zero.mp hy, mul_self_eq_zero.mp hz⟩
  have : 0 < u.dot u := by rw [Vector.dot_eq]; linarith
  exact Real.sqrt_pos.mpr this

theorem Vector.norm_ne_zero (u : Vector) (hu : u ≠ ⟨0, 0, 0⟩) : u.norm ≠ 0 :=
  ne_of_gt (u.norm_pos hu)

/-- For nonzero operands both checked divisions succeed and `angle` returns
`acos` of the clamped cosine. -/
theorem Vector.angle_eq_arccos_clamped (u v : Vector)
    (hu : u ≠ ⟨0, 0, 0⟩) (hv : v ≠ ⟨0, 0, 0⟩) :
    u.angle v = some (Real.arccos (u.clampedCosine v)) := by
  unfold Vector.angle Vector.clampedCosine pyDiv
  rw [if_neg (u.norm_ne_zero hu)]
  simp only [Option.some_bind]
  rw [if_neg (v.norm_ne_zero hv)]
  rfl

theorem Vector.norm_zero_vec : (⟨0, 0, 0⟩ : Vector).norm = 0 := by
  simp [Vector.norm, Vector.dot, fsum]

/-! ## Claim theorems -/

/-- Claim C4: `dot(u, v)` is the sum of the componentwise products, computed
by `math.fsum` over the three products (embedded as the exact sum, which is
`fsum`'s ideal semantics); in particular `dot([1,0,0], [0,1,1]) == 0`. -/
theorem dot_componentwise_fsum (u v : Vector) :
    u.dot v = fsum [u.x * v.x, u.y * v.y, u.z * v.z]
  ∧ u.dot v = u.x * v.x + u.y * v.y + u.z * v.z
  ∧ Vector.dot ⟨1, 0, 0⟩ ⟨0, 1, 1⟩ = 0 := by
  refine ⟨rfl, u.dot_eq v, ?_⟩
  norm_num [Vector.dot, fsum]

/-- Claim C3: for nonzero vectors the cosine argument of `angle(u, v)` is
clamped into `[-1, 1]` before `acos` is applied, so `acos` is never applied
outside its domain and the returned angle lies in `[0, π]`. -/
theorem angle_clamps_cosine_into_domain (u v : Vector)
    (hu : u ≠ ⟨0, 0, 0⟩) (hv : v ≠ ⟨0, 0, 0⟩) :
    -1 ≤ u.clampedCosine v ∧ u.clampedCosine v ≤ 1
  ∧ u.angle v = some (Real.arccos (u.clampedCosine v))
  ∧ 0 ≤ Real.arccos (u.clampedCosine v)
  ∧ Real.arccos (u.clampedCosine v) ≤ Real.pi := by
  refine ⟨le_max_left _ _, ?_, u.angle_eq_arccos_clamped v hu hv,
    Real.arccos_nonneg _, Real.arccos_le_pi _⟩
  exact max_le (by norm_num) (min_le_left _ _)

/-- Witness for C3 at `u = (1,0,0)`, `v = (0,1,1)`. -/
theorem angle_clamps_cosine_into_domain_witness :
    ((⟨1, 0, 0⟩ : Vector) ≠ ⟨0, 0, 0⟩) ∧ ((⟨0, 1, 1⟩ : Vector) ≠ ⟨0, 0, 0⟩)
  ∧ (-1 ≤ Vector.clampedCosine ⟨1, 0, 0⟩ ⟨0, 1, 1⟩
     ∧ Vector.clampedCosine ⟨1, 0, 0⟩ ⟨0, 1, 1⟩ ≤ 1
     ∧ Vector.angle ⟨1, 0, 0⟩ ⟨0, 1, 1⟩
         = some (Real.arccos (Vector.clampedCosine ⟨1, 0, 0⟩ ⟨0, 1, 1⟩))
     ∧ 0 ≤ Real.arccos (Vector.clampedCosine ⟨1, 0, 0⟩ ⟨0, 1, 1⟩)
     ∧ Real.arccos (Vector.clampedCosine ⟨1, 0, 0⟩ ⟨0, 1, 1⟩) ≤ Real.pi) :=
  ⟨by simp, by simp,
   angle_clamps_cosine_into_domain ⟨1, 0, 0⟩ ⟨0, 1, 1⟩ (by simp) (by simp)⟩

/-- Claim C9: for nonzero `u`, `v` and any normal `n` (defaulting to the `+Z`
unit vector when omitted), `oriented_angle` returns the negation of the
unsigned `angle(u, v)` exactly when `n.dot(u.cross(v)) < 0`, and the unsigned
angle otherwise. -/
theorem oriented_angle_sign_spec (u v n : Vector)
    (hu : u ≠ ⟨0, 0, 0⟩) (hv : v ≠ ⟨0, 0, 0⟩) :
    Vector.oriented_angleDefault u v = u.oriented_angle v ⟨0, 0, 1⟩
  ∧ ∃ g, u.angle v = some g
      ∧ (n.dot (u.cross v) < 0 → u.oriented_angle v n = some (-g))
      ∧ (¬ n.dot (u.cross v) < 0 → u.oriented_angle v n = some g) := by
  refine ⟨rfl, Real.arccos (u.clampedCosine v), u.angle_eq_arccos_clamped v hu hv, ?_, ?_⟩
  · intro hneg
    simp [Vector.oriented_angle, u.angle_eq_arccos_clamped v hu hv, if_pos hneg]
  · intro hpos
    simp [Vector.oriented_angle, u.angle_eq_arccos_clamped v hu hv, if_neg hpos]

/-- Witness for C9 at `u = (1,0,0)`, `v = (0,1,0)`, `n = (0,0,1)`. -/
theorem oriented_angle_sign_spec_witness :
    ((⟨1, 0, 0⟩ : Vector) ≠ ⟨0, 0, 0⟩) ∧ ((⟨0, 1, 0⟩ : Vector) ≠ ⟨0, 0, 0⟩)
  ∧ (Vector.oriented_angleDefault ⟨1, 0, 0⟩ ⟨0, 1, 0⟩
       = Vector.oriented_angle ⟨1, 0, 0⟩ ⟨0, 1, 0⟩ ⟨0, 0, 1⟩
     ∧ ∃ g, Vector.angle ⟨1, 0, 0⟩ ⟨0, 1, 0⟩ = some g
        ∧ (Vector.dot ⟨0, 0, 1⟩ (Vector.cross ⟨1, 0, 0⟩ ⟨0, 1, 0⟩) < 0 →
            Vector.oriented_angle ⟨1, 0, 0⟩ ⟨0, 1, 0⟩ ⟨0, 0, 1⟩ = some (-g))
        ∧ (¬ Vector.dot ⟨0, 0, 1⟩ (Vector.cross ⟨1, 0, 0⟩ ⟨0, 1, 0⟩) < 0 →
            Vector.oriented_angle ⟨1, 0, 0⟩ ⟨0, 1, 0⟩ ⟨0, 0, 1⟩ = some g)) :=
  ⟨by simp, by simp,
   oriented_angle_sign_spec ⟨1, 0, 0⟩ ⟨0, 1, 0⟩ ⟨0, 0, 1⟩ (by simp) (by simp)⟩

/-- Claim C10: `abs(u)` returns the maximum *component* `max(x, y, z)`, not
the maximum absolute component; whenever the strictly largest-magnitude
component is negative the result is strictly below the Chebyshev norm the
docstring advertises, it is negative when all components are, and on the
example `(-5, 1, 2)` it returns `2` while the Chebyshev norm is `5`. -/
theorem abs_is_max_component (x y z : ℝ)
    (hx : x < 0) (hy : |y| < |x|) (hz : |z| < |x|) :
    Vector.abs ⟨x, y, z⟩ = max x (max y z)
  ∧ Vector.abs ⟨x, y, z⟩ < chebyshevNorm ⟨x, y, z⟩
  ∧ (y < 0 → z < 0 → Vector.abs ⟨x, y, z⟩ < 0)
  ∧ Vector.abs ⟨-5, 1, 2⟩ = 2 ∧ chebyshevNorm ⟨-5, 1, 2⟩ = 5 := by
  have hxabs : x < |x| := lt_of_lt_of_le hx (abs_nonneg x)
  refine ⟨rfl, ?_, ?_, ?_, ?_⟩
  · have hcheb : chebyshevNorm ⟨x, y, z⟩ = |x| :=
      max_eq_left (le_of_lt (max_lt hy hz))
    rw [hcheb]
    exact max_lt hxabs
      (max_lt (lt_of_le_of_lt (le_abs_self y) hy) (lt_of_le_of_lt (le_abs_self z) hz))
  · intro hy0 hz0
    exact max_lt hx (max_lt hy0 hz0)
  · norm_num [Vector.abs, max_def]
  · norm_num [chebyshevNorm, max_def, abs_of_nonpos, abs_of_nonneg]

/-- Witness for C10 at `(x, y, z) = (-5, 1, 2)`. -/
theorem abs_is_max_component_witness :
    ((-5 : ℝ) < 0 ∧ |(1 : ℝ)| < |(-5 : ℝ)| ∧ |(2 : ℝ)| < |(-5 : ℝ)|)
  ∧ Vector.abs ⟨-5, 1, 2⟩ < chebyshevNorm ⟨-5, 1, 2⟩ :=
  ⟨⟨by norm_num, by norm_num, by norm_num⟩,
   (abs_is_max_component (-5) 1 2 (by norm_num) (by norm_num) (by norm_num)).2.1⟩

/-- Claim C7: `Matrix.rotation` with the zero axis, and `angle` /
`oriented_angle` with a zero-length operand, raise the division-by-zero-norm
error (embedded as `none`) instead of silently returning a value. -/
theorem zero_length_operands_signal_error (angle : ℝ) (v n : Vector) :
    Matrix.rotation angle 0 0 0 = none
  ∧ Vector.angle ⟨0, 0, 0⟩ v = none
  ∧ Vector.angle v ⟨0, 0, 0⟩ = none
  ∧ Vector.oriented_angle ⟨0, 0, 0⟩ v n = none
  ∧ Vector.oriented_angle v ⟨0, 0, 0⟩ n = none := by
  have h1 : Vector.angle ⟨0, 0, 0⟩ v = none := by
    simp [Vector.angle, pyDiv, Vector.norm_zero_vec]
  have h2 : Vector.angle v ⟨0, 0, 0⟩ = none := by
    rcases eq_or_ne v.norm 0 with h | h <;>
      simp [Vector.angle, pyDiv, Vector.norm_zero_vec, h]
  refine ⟨?_, h1, h2, ?_, ?_⟩
  · simp [Matrix.rotation, pyDiv, Real.sqrt_zero]
  · simp [Vector.oriented_angle, h1]
  · simp [Vector.oriented_angle, h2]

/-- Explicit product of two 3x3 matrices under the source's matrix-matrix
branch. -/
theorem Matrix.mul_explicit (a b c d e f g h i a' b' c' d' e' f' g' h' i' : ℝ) :
    Matrix.mul [[a, b, c], [d, e, f], [g, h, i]]
        [[a', b', c'], [d', e', f'], [g', h', i']]
      = some [[a * a' + b * d' + c * g', a * b' + b * e' + c * h', a * c' + b * f' + c * i'],
              [d * a' + e * d' + f * g', d * b' + e * e' + f * h', d * c' + e * f' + f * i'],
              [g * a' + h * d' + i * g', g * b' + h * e' + i * h', g * c' + h * f' + i * i']] := by
  simp [Matrix.mul, Matrix.mulVec, pyTranspose, seqOption]
  and_intros <;> ring

/-- The rotation matrix around the `+Z` axis. -/
theorem Matrix.rotation_z_eq (angle : ℝ) :
    Matrix.rotation angle 0 0 1
      = some [[Real.cos angle, -Real.sin angle, 0],
              [Real.sin angle, Real.cos angle, 0],
              [0, 0, 1]] := by
  have h : Real.sqrt (0 * 0 + 0 * 0 + 1 * 1) = 1 := by norm_num
  norm_num [Matrix.rotation, pyDiv, h]

/-- The rotation matrix around the `+X` axis. -/
theorem Matrix.rotation_x_eq (angle : ℝ) :
    Matrix.rotation angle 1 0 0
      = some [[1, 0, 0],
              [0, Real.cos angle, -Real.sin angle],
              [0, Real.sin angle, Real.cos angle]] := by
  have h : Real.sqrt (1 * 1 + 0 * 0 + 0 * 0) = 1 := by norm_num
  norm_num [Matrix.rotation, pyDiv, h]

/-- Explicit form of `Matrix.rotation` when the axis norm `d` is nonzero. -/
theorem Matrix.rotation_eq (angle x y z d : ℝ)
    (hd : Real.sqrt (x * x + y * y + z * z) = d) (h : d ≠ 0) :
    Matrix.rotation angle x y z = some
      [[x/d * (x/d) * (1 - Real.cos angle) + Real.cos angle,
        x/d * (y/d) * (1 - Real.cos angle) - z/d * Real.sin angle,
        x/d * (z/d) * (1 - Real.cos angle) + y/d * Real.sin angle],
       [y/d * (x/d) * (1 - Real.cos angle) + z/d * Real.sin angle,
        y/d * (y/d) * (1 - Real.cos angle) + Real.cos angle,
        y/d * (z/d) * (1 - Real.cos angle) - x/d * Real.sin angle],
       [z/d * (x/d) * (1 - Real.cos angle) - y/d * Real.sin angle,
        z/d * (y/d) * (1 - Real.cos angle) + x/d * Real.sin angle,
        z/d * (z/d) * (1 - Real.cos angle) + Real.cos angle]] := by
  unfold Matrix.rotation pyDiv
  rw [hd]
  simp [if_neg h]

/-- Claim C6: for any angle and any axis of nonzero squared norm, the product
`rotation(θ, x, y, z) * rotation(-θ, x, y, z)` is exactly the 3x3 identity
matrix over real arithmetic. -/
theorem rotation_times_rotation_neg (θ x y z : ℝ) (h : x * x + y * y + z * z ≠ 0) :
    ((Matrix.rotation θ x y z).bind fun A =>
     (Matrix.rotation (-θ) x y z).bind fun B => Matrix.mul A B)
      = some Matrix.identity := by
  have hnn : 0 ≤ x * x + y * y + z * z := by
    nlinarith [mul_self_nonneg x, mul_self_nonneg y, mul_self_nonneg z]
  have hdne : Real.sqrt (x * x + y * y + z * z) ≠ 0 :=
    ne_of_gt (Real.sqrt_pos.mpr (lt_of_le_of_ne hnn (Ne.symm h)))
  set d := Real.sqrt (x * x + y * y + z * z) with hd
  have hdd : d * d = x * x + y * y + z * z := Real.mul_self_sqrt hnn
  have h1 : x / d * (x / d) + y / d * (y / d) + z / d * (z / d) = 1 := by
    field_simp
    linarith [hdd]
  have h2 : Real.sin θ * Real.sin θ + Real.cos θ * Real.cos θ = 1 := by
    nlinarith [Real.sin_sq_add_cos_sq θ]
  rw [Matrix.rotation_eq θ x y z d hd.symm hdne,
      Matrix.rotation_eq (-θ) x y z d hd.symm hdne]
  simp only [Option.some_bind, Real.sin_neg, Real.cos_neg]
  rw [Matrix.mul_explicit]
  simp only [Option.some.injEq, Matrix.identity, List.cons.injEq, and_true]
  and_intros
  · linear_combination (x/d*(x/d)*(1 - Real.cos θ)^2 + Real.sin θ*Real.sin θ) * h1
      + (1 - x/d*(x/d)) * h2
  · linear_combination (x/d*(y/d)*(1 - Real.cos θ)^2) * h1 - (x/d*(y/d)) * h2
  · linear_combination (x/d*(z/d)*(1 - Real.cos θ)^2) * h1 - (x/d*(z/d)) * h2
  · linear_combination (x/d*(y/d)*(1 - Real.cos θ)^2) * h1 - (x/d*(y/d)) * h2
  · linear_combination (y/d*(y/d)*(1 - Real.cos θ)^2 + Real.sin θ*Real.sin θ) * h1
      + (1 - y/d*(y/d)) * h2
  · linear_combination (y/d*(z/d)*(1 - Real.cos θ)^2) * h1 - (y/d*(z/d)) * h2
  · linear_combination (x/d*(z/d)*(1 - Real.cos θ)^2) * h1 - (x/d*(z/d)) * h2
  · linear_combination (y/d*(z/d)*(1 - Real.cos θ)^2) * h1 - (y/d*(z/d)) * h2
  · linear_combination (z/d*(z/d)*(1 - Real.cos θ)^2 + Real.sin θ*Real.sin θ) * h1
      + (1 - z/d*(z/d)) * h2

/-- Witness for C6 at `θ = 0`, axis `(1, 0, 0)`. -/
theorem rotation_times_rotation_neg_witness :
    ((1:ℝ) * 1 + 0 * 0 + 0 * 0 ≠ 0)
  ∧ ((Matrix.rotation 0 1 0 0).bind fun A =>
     (Matrix.rotation (-0) 1 0 0).bind fun B => Matrix.mul A B)
      = some Matrix.identity :=
  ⟨by norm_num, rotation_times_rotation_neg 0 1 0 0 (by norm_num)⟩

/-- Claim C2 (counterexample): `Matrix.__sub__` does *not* return a matrix of
exactly 3 rows — on the concrete 3x3 operands from the repository's tests it
returns the flat list of the 9 componentwise differences, whose length is 9,
not 3. -/
theorem matrix_sub_not_three_rows :
    Matrix.sub [[1, 2, 3], [4, 5, 6], [7, 8, 9]] [[3, 2, 1], [6, 5, 4], [9, 8, 7]]
      = [-2, 0, 2, -2, 0, 2, -2, 0, 2]
  ∧ (Matrix.sub [[1, 2, 3], [4, 5, 6], [7, 8, 9]]
        [[3, 2, 1], [6, 5, 4], [9, 8, 7]]).length ≠ 3 := by
  constructor
  · norm_num [Matrix.sub]
  · norm_num [Matrix.sub]

/-- Claim C2 (amended): `Matrix.__mul__` preserves the 3x3 shape (the product
of two 3x3 matrices is again 3 rows of 3 columns), but `Matrix.__sub__`
returns the flat `Matrix` of the 9 row-major componentwise differences, not a
matrix of 3 rows. -/
theorem matrix_mul_shape_and_sub_flattens
    (a b c d e f g h i a' b' c' d' e' f' g' h' i' : ℝ) :
    Matrix.sub [[a, b, c], [d, e, f], [g, h, i]] [[a', b', c'], [d', e', f'], [g', h', i']]
      = [a - a', b - b', c - c', d - d', e - e', f - f', g - g', h - h', i - i']
  ∧ ∃ M, Matrix.mul [[a, b, c], [d, e, f], [g, h, i]]
            [[a', b', c'], [d', e', f'], [g', h', i']] = some M
        ∧ M.length = 3 ∧ ∀ r ∈ M, r.length = 3 := by
  refine ⟨by simp [Matrix.sub], ?_⟩
  refine ⟨[[a * a' + b * d' + c * g', a * b' + b * e' + c * h', a * c' + b * f' + c * i'],
           [d * a' + e * d' + f * g', d * b' + e * e' + f * h', d * c' + e * f' + f * i'],
           [g * a' + h * d' + i * g', g * b' + h * e' + i * h', g * c' + h * f' + i * i']],
          ?_, by simp, by simp⟩
  exact Matrix.mul_explicit a b c d e f g h i a' b' c' d' e' f' g' h' i'

/-- Claim C5: `from_euler_angles(alpha, beta, gamma)` is exactly the Z-X-Z
intrinsic Euler rotation `rotation(alpha, z) * rotation(beta, x) *
rotation(gamma, z)`, and its top-left entry is the reference-table formula
`c1*c3 - c2*s1*s3`. -/
theorem from_euler_angles_is_zxz (alpha beta gamma : ℝ) :
    ((Matrix.rotation alpha 0 0 1).bind fun A =>
     (Matrix.rotation beta 1 0 0).bind fun B =>
     (Matrix.mul A B).bind fun AB =>
     (Matrix.rotation gamma 0 0 1).bind fun C =>
       Matrix.mul AB C) = some (Matrix.from_euler_angles alpha beta gamma)
  ∧ ((Matrix.from_euler_angles alpha beta gamma).headD []).headD 0
      = Real.cos alpha * Real.cos gamma
        - Real.cos beta * Real.sin alpha * Real.sin gamma := by
  constructor
  · rw [Matrix.rotation_z_eq alpha, Matrix.rotation_x_eq beta, Matrix.rotation_z_eq gamma]
    simp only [Option.some_bind, Matrix.mul_explicit]
    simp only [Option.some.injEq, Matrix.from_euler_angles]
    norm_num
    and_intros <;> ring
  · simp [Matrix.from_euler_angles]

/-- Claim C8: no operation of the vector/matrix layer mutates an operand.  In
the object-store model every operation either touches no object at all
(`dot`, `norm`, `angle`, `oriented_angle`, `abs`) or allocates its freshly
constructed result at a fresh address — including the augmented assignments
`__iadd__`/`__isub__` — leaving every previously allocated object, in
particular both operands, unchanged (the old prefix of the store is
preserved). -/
theorem operations_do_not_mutate (h : List Obj) (i j k : ℕ)
    (s θ x y z alpha beta gamma : ℝ) :
    (Vector.dotH h i j).1 = h
  ∧ (Vector.normH h i).1 = h
  ∧ (Vector.angleH h i j).1 = h
  ∧ (Vector.oriented_angleH h i j k).1 = h
  ∧ (Vector.absH h i).1 = h
  ∧ ((Vector.addH h i j).1.take h.length = h ∧ (Vector.addH h i j).2 = h.length)
  ∧ ((Vector.iaddH h i j).1.take h.length = h ∧ (Vector.iaddH h i j).2 = h.length)
  ∧ ((Vector.subH h i j).1.take h.length = h ∧ (Vector.subH h i j).2 = h.length)
  ∧ ((Vector.isubH h i j).1.take h.length = h ∧ (Vector.isubH h i j).2 = h.length)
  ∧ ((Vector.negH h i).1.take h.length = h ∧ (Vector.negH h i).2 = h.length)
  ∧ ((Vector.mulH h i s).1.take h.length = h ∧ (Vector.mulH h i s).2 = h.length)
  ∧ ((Vector.crossH h i j).1.take h.length = h ∧ (Vector.crossH h i j).2 = h.length)
  ∧ ((Vector.divH h i s).1.take h.length = h
      ∧ ((Vector.divH h i s).2 = none ∨ (Vector.divH h i s).2 = some h.length))
  ∧ ((Matrix.subH h i j).1.take h.length = h ∧ (Matrix.subH h i j).2 = h.length)
  ∧ ((Matrix.mulH h i j).1.take h.length = h
      ∧ ((Matrix.mulH h i j).2 = none ∨ (Matrix.mulH h i j).2 = some h.length))
  ∧ ((Matrix.mulVec3H h i j).1.take h.length = h
      ∧ ((Matrix.mulVec3H h i j).2 = none ∨ (Matrix.mulVec3H h i j).2 = some h.length))
  ∧ ((Matrix.rotationH h θ x y z).1.take h.length = h
      ∧ ((Matrix.rotationH h θ x y z).2 = none
         ∨ (Matrix.rotationH h θ x y z).2 = some h.length))
  ∧ ((Matrix.from_euler_anglesH h alpha beta gamma).1.take h.length = h
      ∧ (Matrix.from_euler_anglesH h alpha beta gamma).2 = h.length) := by
  have tak : ∀ (o : Obj), ((allocObj h o).1).take h.length = h := by
    intro o
    simp [allocObj]
  refine ⟨rfl, rfl, rfl, rfl, rfl,
    ⟨tak _, rfl⟩, ⟨tak _, rfl⟩, ⟨tak _, rfl⟩, ⟨tak _, rfl⟩, ⟨tak _, rfl⟩,
    ⟨tak _, rfl⟩, ⟨tak _, rfl⟩, ?_, ⟨tak _, rfl⟩, ?_, ?_, ?_, ⟨tak _, rfl⟩⟩
  · rcases hc : (getVec h i).div s with _ | r <;>
      simp [Vector.divH, hc, allocObj]
  · rcases hc : Matrix.mul (getMat h i) (getMat h j) with _ | m <;>
      simp [Matrix.mulH, hc, allocObj]
  · rcases hc : Matrix.mulVec3 (getMat h i) (getVec h j) with _ | r <;>
      simp [Matrix.mulVec3H, hc, allocObj]
  · rcases hc : Matrix.rotation θ x y z with _ | m <;>
      simp [Matrix.rotationH, hc, allocObj]

/-! ## Helper lemmas for the spec-modelled Orbit layer -/

theorem rotZ_dot (phi : ℝ) (a b : Vector) :
    (rotZ phi a).dot (rotZ phi b) = a.dot b := by
  have h := Real.sin_sq_add_cos_sq phi
  simp only [rotZ, Vector.dot_eq]
  linear_combination (a.x * b.x + a.y * b.y) * h

theorem rotX_dot (phi : ℝ) (a b : Vector) :
    (rotX phi a).dot (rotX phi b) = a.dot b := by
  have h := Real.sin_sq_add_cos_sq phi
  simp only [rotX, Vector.dot_eq]
  linear_combination (a.y * b.y + a.z * b.z) * h

theorem orientation_dot (o : Orbit) (a b : Vector) :
    (o.orientation a).dot (o.orientation b) = a.dot b := by
  unfold Orbit.orientation
  rw [rotZ_dot, rotX_dot, rotZ_dot]

theorem orientation_norm (o : Orbit) (a : Vector) :
    (o.orientation a).norm = a.norm := by
  unfold Vector.norm
  rw [orientation_dot]

theorem rotZ_cross (phi : ℝ) (a b : Vector) :
    (rotZ phi a).cross (rotZ phi b) = rotZ phi (a.cross b) := by
  have h := Real.sin_sq_add_cos_sq phi
  simp only [rotZ, Vector.cross, Vector.mk.injEq]
  refine ⟨by ring, by ring, ?_⟩
  linear_combination (a.x * b.y - a.y * b.x) * h

theorem rotX_cross (phi : ℝ) (a b : Vector) :
    (rotX phi a).cross (rotX phi b) = rotX phi (a.cross b) := by
  have h := Real.sin_sq_add_cos_sq phi
  simp only [rotX, Vector.cross, Vector.mk.injEq]
  refine ⟨?_, by ring, by ring⟩
  linear_combination (a.y * b.z - a.z * b.y) * h

theorem orientation_cross (o : Orbit) (a b : Vector) :
    (o.orientation a).cross (o.orientation b) = o.orientation (a.cross b) := by
  unfold Orbit.orientation
  rw [rotZ_cross, rotX_cross, rotZ_cross]

theorem orientation_mul (o : Orbit) (a : Vector) (s : ℝ) :
    (o.orientation a).mul s = o.orientation (a.mul s) := by
  simp only [Orbit.orientation, rotZ, rotX, Vector.mul, Vector.mk.injEq]
  refine ⟨by ring, by ring, by ring⟩

theorem orientation_sub (o : Orbit) (a b : Vector) :
    (o.orientation a).sub (o.orientation b) = o.orientation (a.sub b) := by
  simp only [Orbit.orientation, rotZ, rotX, Vector.sub, Vector.mk.injEq]
  refine ⟨by ring, by ring, by ring⟩

theorem orientation_z_component (o : Orbit) (c : ℝ) :
    (o.orientation ⟨0, 0, c⟩).z = c * Real.cos o.inclination := by
  simp only [Orbit.orientation, rotZ, rotX]
  ring

/-- The spec-modelled orientation map agrees with the source's Z-X-Z
Euler-angle matrix of §4.1. -/
theorem orientation_matches_euler_matrix (o : Orbit) (u : Vector) :
    Matrix.mulVec3
      (Matrix.from_euler_angles o.longitude_of_ascending_node o.inclination
        o.argument_of_periapsis) u
      = some (o.orientation u) := by
  simp only [Matrix.from_euler_angles, Matrix.mulVec3, Orbit.orientation,
    rotZ, rotX, Option.some.injEq, Vector.mk.injEq]
  refine ⟨by ring, by ring, by ring⟩

/-! ## Kepler solver and anomaly-conversion lemmas -/

theorem solveLoopE_resid (e M : ℝ) :
    ∀ (n : ℕ) (E0 E : ℝ), solveLoopE e M E0 n = some E →
      |E - e * Real.sin E - M| ≤ keplerTol := by
  intro n
  induction n with
  | zero => intro E0 E h; simp [solveLoopE] at h
  | succ k ih =>
      intro E0 E h
      simp only [solveLoopE] at h
      split_ifs at h with hc
      · simp only [Option.some.injEq] at h
        subst h
        exact hc
      · exact ih _ _ h

theorem solveE_resid (e M E : ℝ) (h : solveE e M = some E) :
    |E - e * Real.sin E - M| ≤ keplerTol :=
  solveLoopE_resid e M 100 M E h

theorem solveLoopH_resid (e M : ℝ) :
    ∀ (n : ℕ) (H0 H : ℝ), solveLoopH e M H0 n = some H →
      |e * Real.sinh H - H - M| ≤ keplerTol := by
  intro n
  induction n with
  | zero => intro H0 H h; simp [solveLoopH] at h
  | succ k ih =>
      intro H0 H h
      simp only [solveLoopH] at h
      split_ifs at h with hc
      · simp only [Option.some.injEq] at h
        subst h
        exact hc
      · exact ih _ _ h

theorem solveH_resid (e M H : ℝ) (h : solveH e M = some H) :
    |e * Real.sinh H - H - M| ≤ keplerTol :=
  solveLoopH_resid e M 100 _ H h

theorem denE_pos (e E : ℝ) (he0 : 0 ≤ e) (he1 : e < 1) :
    0 < 1 - e * Real.cos E := by
  nlinarith [Real.cos_le_one E, Real.neg_one_le_cos E]

theorem qE_bounds (e E : ℝ) (he0 : 0 ≤ e) (he1 : e < 1) :
    -1 ≤ (Real.cos E - e) / (1 - e * Real.cos E)
      ∧ (Real.cos E - e) / (1 - e * Real.cos E) ≤ 1 := by
  have hd := denE_pos e E he0 he1
  constructor
  · rw [le_div_iff₀ hd]
    nlinarith [Real.neg_one_le_cos E]
  · rw [div_le_one hd]
    nlinarith [Real.cos_le_one E]

theorem nuFromE_cos (e E : ℝ) (he0 : 0 ≤ e) (he1 : e < 1) :
    Real.cos (nuFromE e E) = (Real.cos E - e) / (1 - e * Real.cos E) := by
  obtain ⟨hq1, hq2⟩ := qE_bounds e E he0 he1
  unfold nuFromE
  split_ifs with h
  · rw [neg_one_mul, Real.cos_neg, Real.cos_arccos hq1 hq2]
  · rw [one_mul, Real.cos_arccos hq1 hq2]

theorem nuFromE_sin (e E : ℝ) (he0 : 0 ≤ e) (he1 : e < 1) :
    Real.sin (nuFromE e E)
      = Real.sqrt (1 - e ^ 2) * Real.sin E / (1 - e * Real.cos E) := by
  have hd := denE_pos e E he0 he1
  have he2 : (0:ℝ) ≤ 1 - e ^ 2 := by nlinarith
  have hsq : 1 - ((Real.cos E - e) / (1 - e * Real.cos E)) ^ 2
      = (1 - e ^ 2) * (Real.sin E / (1 - e * Real.cos E)) ^ 2 := by
    have hs := Real.sin_sq_add_cos_sq E
    field_simp
    linear_combination (-(1 - e ^ 2)) * hs
  have hkey : Real.sin (Real.arccos ((Real.cos E - e) / (1 - e * Real.cos E)))
      = Real.sqrt (1 - e ^ 2) * |Real.sin E| / (1 - e * Real.cos E) := by
    rw [Real.sin_arccos, hsq, Real.sqrt_mul he2, Real.sqrt_sq_eq_abs, abs_div,
      abs_of_pos hd]
    ring
  unfold nuFromE
  split_ifs with h
  · rw [neg_one_mul, Real.sin_neg, hkey, abs_of_neg h]
    ring
  · rw [one_mul, hkey, abs_of_nonneg (not_lt.mp h)]

theorem nuFromE_one_add (e E : ℝ) (he0 : 0 ≤ e) (he1 : e < 1) :
    1 + e * Real.cos (nuFromE e E) = (1 - e ^ 2) / (1 - e * Real.cos E) := by
  have hd := denE_pos e E he0 he1
  rw [nuFromE_cos e E he0 he1]
  field_simp
  ring

theorem nuFromE_one_add_pos (e E : ℝ) (he0 : 0 ≤ e) (he1 : e < 1) :
    0 < 1 + e * Real.cos (nuFromE e E) := by
  rw [nuFromE_one_add e E he0 he1]
  exact div_pos (by nlinarith) (denE_pos e E he0 he1)

theorem nuFromE_range (e E : ℝ) (he0 : 0 ≤ e) (he1 : e < 1) :
    -Real.pi < nuFromE e E ∧ nuFromE e E ≤ Real.pi := by
  obtain ⟨hq1, hq2⟩ := qE_bounds e E he0 he1
  constructor
  · unfold nuFromE
    split_ifs with h
    · rw [neg_one_mul, neg_lt_neg_iff]
      have hqgt : -1 < (Real.cos E - e) / (1 - e * Real.cos E) := by
        rcases lt_or_eq_of_le hq1 with h2 | heq
        · exact h2
        · exfalso
          have hd := denE_pos e E he0 he1
          have hfrac : -(1 - e * Real.cos E) = Real.cos E - e := by
            field_simp at heq
            linarith [heq]
          have hcE : Real.cos E = -1 := by nlinarith
          have hs := Real.sin_sq_add_cos_sq E
          have hs0 : Real.sin E ^ 2 = 0 := by nlinarith
          have : Real.sin E = 0 := pow_eq_zero_iff (by norm_num) |>.mp hs0
          linarith
      exact lt_of_le_of_ne (Real.arccos_le_pi _)
        (fun hcontra => absurd (Real.arccos_eq_pi.mp hcontra) (not_le.mpr hqgt))
    · rw [one_mul]
      have := Real.arccos_nonneg ((Real.cos E - e) / (1 - e * Real.cos E))
      linarith [Real.pi_pos]
  · unfold nuFromE
    split_ifs with h
    · rw [neg_one_mul]
      have := Real.arccos_nonneg ((Real.cos E - e) / (1 - e * Real.cos E))
      linarith [Real.pi_pos]
    · rw [one_mul]
      exact Real.arccos_le_pi _

theorem denH_pos (e H : ℝ) (he : 1 < e) : 0 < e * Real.cosh H - 1 := by
  nlinarith [Real.one_le_cosh H]

theorem qH_bounds (e H : ℝ) (he : 1 < e) :
    -1 < (e - Real.cosh H) / (e * Real.cosh H - 1)
      ∧ (e - Real.cosh H) / (e * Real.cosh H - 1) ≤ 1 := by
  have hd := denH_pos e H he
  constructor
  · rw [lt_div_iff₀ hd]
    nlinarith [Real.one_le_cosh H]
  · rw [div_le_one hd]
    nlinarith [Real.one_le_cosh H]

theorem nuFromH_cos (e H : ℝ) (he : 1 < e) :
    Real.cos (nuFromH e H) = (e - Real.cosh H) / (e * Real.cosh H - 1) := by
  obtain ⟨hq1, hq2⟩ := qH_bounds e H he
  unfold nuFromH
  split_ifs with h
  · rw [neg_one_mul, Real.cos_neg, Real.cos_arccos (le_of_lt hq1) hq2]
  · rw [one_mul, Real.cos_arccos (le_of_lt hq1) hq2]

theorem nuFromH_sin (e H : ℝ) (he : 1 < e) :
    Real.sin (nuFromH e H)
      = Real.sqrt (e ^ 2 - 1) * Real.sinh H / (e * Real.cosh H - 1) := by
  have hd := denH_pos e H he
  have he2 : (0:ℝ) ≤ e ^ 2 - 1 := by nlinarith
  have hsq : 1 - ((e - Real.cosh H) / (e * Real.cosh H - 1)) ^ 2
      = (e ^ 2 - 1) * (Real.sinh H / (e * Real.cosh H - 1)) ^ 2 := by
    have hs := Real.cosh_sq_sub_sinh_sq H
    field_simp
    linear_combination (e ^ 2 - 1) * hs
  have hkey : Real.sin (Real.arccos ((e - Real.cosh H) / (e * Real.cosh H - 1)))
      = Real.sqrt (e ^ 2 - 1) * |Real.sinh H| / (e * Real.cosh H - 1) := by
    rw [Real.sin_arccos, hsq, Real.sqrt_mul he2, Real.sqrt_sq_eq_abs, abs_div,
      abs_of_pos hd]
    ring
  unfold nuFromH
  split_ifs with h
  · rw [neg_one_mul, Real.sin_neg, hkey, abs_of_neg h]
    ring
  · rw [one_mul, hkey, abs_of_nonneg (not_lt.mp h)]

theorem nuFromH_one_add (e H : ℝ) (he : 1 < e) :
    1 + e * Real.cos (nuFromH e H) = (e ^ 2 - 1) / (e * Real.cosh H - 1) := by
  have hd := denH_pos e H he
  rw [nuFromH_cos e H he]
  field_simp
  ring

theorem nuFromH_one_add_pos (e H : ℝ) (he : 1 < e) :
    0 < 1 + e * Real.cos (nuFromH e H) := by
  rw [nuFromH_one_add e H he]
  exact div_pos (by nlinarith) (denH_pos e H he)

theorem nuFromH_range (e H : ℝ) (he : 1 < e) :
    -Real.pi < nuFromH e H ∧ nuFromH e H ≤ Real.pi := by
  obtain ⟨hq1, hq2⟩ := qH_bounds e H he
  constructor
  · unfold nuFromH
    split_ifs with h
    · rw [neg_one_mul, neg_lt_neg_iff]
      exact lt_of_le_of_ne (Real.arccos_le_pi _)
        (fun hcontra => absurd (Real.arccos_eq_pi.mp hcontra) (not_le.mpr hq1))
    · rw [one_mul]
      have := Real.arccos_nonneg ((e - Real.cosh H) / (e * Real.cosh H - 1))
      linarith [Real.pi_pos]
  · unfold nuFromH
    split_ifs with h
    · rw [neg_one_mul]
      have := Real.arccos_nonneg ((e - Real.cosh H) / (e * Real.cosh H - 1))
      linarith [Real.pi_pos]
    · rw [one_mul]
      exact Real.arccos_le_pi _



theorem meanAnomalyFromNu_elliptic (e E : ℝ) (he0 : 0 < e) (he1 : e < 1) :
    ∃ k : ℤ, meanAnomalyFromNu e (nuFromE e E)
      = E - e * Real.sin E + 2 * Real.pi * k := by
  have hd := denE_pos e E he0.le he1
  have hq2 := (qE_bounds e E he0.le he1).2
  have hq : (e + Real.cos (nuFromE e E)) / (1 + e * Real.cos (nuFromE e E))
      = Real.cos E := by
    have he2 : (1:ℝ) - e ^ 2 ≠ 0 := by nlinarith
    rw [nuFromE_one_add e E he0.le he1, nuFromE_cos e E he0.le he1]
    field_simp [hd.ne', he2]
    ring
  have hqlt : Real.sin E < 0 →
      (Real.cos E - e) / (1 - e * Real.cos E) < 1 := by
    intro hlt
    rcases lt_or_eq_of_le hq2 with h2 | heq
    · exact h2
    · exfalso
      have hfrac : Real.cos E - e = 1 - e * Real.cos E := by
        field_simp at heq
        linarith [heq]
      have hcE : Real.cos E = 1 := by nlinarith
      have hs := Real.sin_sq_add_cos_sq E
      have hs0 : Real.sin E ^ 2 = 0 := by nlinarith
      have : Real.sin E = 0 := pow_eq_zero_iff (by norm_num) |>.mp hs0
      linarith
  have hslt : nuFromE e E < 0 ↔ Real.sin E < 0 := by
    constructor
    · intro hlt
      by_contra hns
      have hform : nuFromE e E
          = Real.arccos ((Real.cos E - e) / (1 - e * Real.cos E)) := by
        unfold nuFromE
        rw [if_neg hns, one_mul]
      rw [hform] at hlt
      exact absurd hlt (not_lt.mpr (Real.arccos_nonneg _))
    · intro hlt
      have hform : nuFromE e E
          = -Real.arccos ((Real.cos E - e) / (1 - e * Real.cos E)) := by
        unfold nuFromE
        rw [if_pos hlt, neg_one_mul]
      rw [hform, neg_lt, neg_zero]
      exact Real.arccos_pos.mpr (hqlt hlt)
  set A := Real.arccos (Real.cos E) with hA
  have hcosA : Real.cos A = Real.cos E :=
    Real.cos_arccos (Real.neg_one_le_cos E) (Real.cos_le_one E)
  have hsinA : Real.sin A = |Real.sin E| := by
    rw [hA, Real.sin_arccos,
      show (1:ℝ) - Real.cos E ^ 2 = Real.sin E ^ 2 by
        linear_combination -(Real.sin_sq_add_cos_sq E),
      Real.sqrt_sq_eq_abs]
  set E' := (if nuFromE e E < 0 then (-1:ℝ) else 1) *
    Real.arccos ((e + Real.cos (nuFromE e E)) /
      (1 + e * Real.cos (nuFromE e E))) with hEdef
  have hM : meanAnomalyFromNu e (nuFromE e E) = E' - e * Real.sin E' := by
    unfold meanAnomalyFromNu
    rw [if_pos he1]
  have hE' : E' = (if Real.sin E < 0 then (-1:ℝ) else 1) * A := by
    rw [hEdef, hq, hA]
    simp only [hslt]
  have hcosEq : Real.cos E' = Real.cos E := by
    rw [hE']
    split_ifs with h
    · rw [neg_one_mul, Real.cos_neg, hcosA]
    · rw [one_mul, hcosA]
  have hsinEq : Real.sin E' = Real.sin E := by
    rw [hE']
    split_ifs with h
    · rw [neg_one_mul, Real.sin_neg, hsinA, abs_of_neg h, neg_neg]
    · rw [one_mul, hsinA, abs_of_nonneg (not_lt.mp h)]
  have hAng : ((E' : ℝ) : Real.Angle) = (E : Real.Angle) :=
    Real.Angle.cos_sin_inj hcosEq hsinEq
  obtain ⟨k, hk⟩ := Real.Angle.angle_eq_iff_two_pi_dvd_sub.mp hAng
  refine ⟨k, ?_⟩
  rw [hM, hsinEq]
  linarith [hk]

theorem meanAnomalyFromNu_hyperbolic (e H : ℝ) (he : 1 < e) :
    meanAnomalyFromNu e (nuFromH e H) = e * Real.sinh H - H := by
  have hd := denH_pos e H he
  have hss : Real.sqrt (e ^ 2 - 1) * Real.sqrt (e ^ 2 - 1) = e ^ 2 - 1 :=
    Real.mul_self_sqrt (by nlinarith)
  have harg : Real.sqrt (e ^ 2 - 1) * Real.sin (nuFromH e H) /
      (1 + e * Real.cos (nuFromH e H)) = Real.sinh H := by
    have he2 : (0:ℝ) < e ^ 2 - 1 := by nlinarith
    rw [nuFromH_sin e H he, nuFromH_one_add e H he]
    field_simp [hd.ne', he2.ne']
    linear_combination Real.sinh H * hss
  unfold meanAnomalyFromNu
  rw [if_neg (not_lt.mpr he.le)]
  simp only [harg, Real.arsinh_sinh]



/-! ## State-vector geometry of the spec-modelled orbit -/

theorem norm_plane (a b : ℝ) : (Vector.mk a b 0).norm = Real.sqrt (a ^ 2 + b ^ 2) := by
  unfold Vector.norm
  rw [Vector.dot_eq]
  congr 1
  ring

theorem norm_xaxis (a : ℝ) (h : 0 ≤ a) : (Vector.mk a 0 0).norm = a := by
  unfold Vector.norm
  rw [Vector.dot_eq]
  simp [Real.sqrt_mul_self h]

theorem norm_zaxis (c : ℝ) (h : 0 ≤ c) : (Vector.mk 0 0 c).norm = c := by
  unfold Vector.norm
  rw [Vector.dot_eq]
  simp [Real.sqrt_mul_self h]

theorem position_cross_velocity (o : Orbit) (nu : ℝ)
    (hcos : 0 < 1 + o.eccentricity * Real.cos nu) :
    (o.position_nu nu).cross (o.velocity_nu nu)
      = o.orientation
          ⟨0, 0, o.semi_latus_rectum * Real.sqrt (o.mu / o.semi_latus_rectum)⟩ := by
  unfold Orbit.position_nu Orbit.velocity_nu
  rw [orientation_cross]
  congr 1
  have hs := Real.sin_sq_add_cos_sq nu
  simp only [Vector.cross, Vector.mk.injEq]
  refine ⟨by ring, by ring, ?_⟩
  field_simp
  linear_combination (o.semi_latus_rectum *
    Real.sqrt (o.mu / o.semi_latus_rectum)) * hs

theorem position_norm (o : Orbit) (nu : ℝ) (hl : 0 < o.semi_latus_rectum)
    (hcos : 0 < 1 + o.eccentricity * Real.cos nu) :
    (o.position_nu nu).norm
      = o.semi_latus_rectum / (1 + o.eccentricity * Real.cos nu) := by
  have hr0 : 0 < o.semi_latus_rectum / (1 + o.eccentricity * Real.cos nu) :=
    div_pos hl hcos
  unfold Orbit.position_nu
  rw [orientation_norm, norm_plane]
  have hs := Real.sin_sq_add_cos_sq nu
  have hsum : (o.semi_latus_rectum / (1 + o.eccentricity * Real.cos nu) * Real.cos nu) ^ 2
      + (o.semi_latus_rectum / (1 + o.eccentricity * Real.cos nu) * Real.sin nu) ^ 2
      = (o.semi_latus_rectum / (1 + o.eccentricity * Real.cos nu)) ^ 2 := by
    linear_combination (o.semi_latus_rectum / (1 + o.eccentricity * Real.cos nu)) ^ 2 * hs
  rw [hsum, Real.sqrt_sq hr0.le]

theorem velocity_norm_sq (o : Orbit) (nu : ℝ) (hmu : 0 < o.mu)
    (hl : 0 < o.semi_latus_rectum) :
    (o.velocity_nu nu).dot (o.velocity_nu nu)
      = o.mu / o.semi_latus_rectum *
          (1 + 2 * o.eccentricity * Real.cos nu + o.eccentricity ^ 2) := by
  have hK2 : Real.sqrt (o.mu / o.semi_latus_rectum) *
      Real.sqrt (o.mu / o.semi_latus_rectum) = o.mu / o.semi_latus_rectum :=
    Real.mul_self_sqrt (div_pos hmu hl).le
  unfold Orbit.velocity_nu
  rw [orientation_dot, Vector.dot_eq]
  have hs := Real.sin_sq_add_cos_sq nu
  have hexp : (Real.sqrt (o.mu / o.semi_latus_rectum) * -Real.sin nu) *
        (Real.sqrt (o.mu / o.semi_latus_rectum) * -Real.sin nu)
      + (Real.sqrt (o.mu / o.semi_latus_rectum) * (o.eccentricity + Real.cos nu)) *
        (Real.sqrt (o.mu / o.semi_latus_rectum) * (o.eccentricity + Real.cos nu))
      + 0 * 0
      = (Real.sqrt (o.mu / o.semi_latus_rectum) * Real.sqrt (o.mu / o.semi_latus_rectum)) *
          ((Real.sin nu ^ 2 + Real.cos nu ^ 2) +
            2 * o.eccentricity * Real.cos nu + o.eccentricity ^ 2) := by
    ring
  rw [hexp, hK2]
  linear_combination o.mu / o.semi_latus_rectum * hs

theorem position_dot_velocity (o : Orbit) (nu : ℝ) :
    (o.position_nu nu).dot (o.velocity_nu nu)
      = o.semi_latus_rectum / (1 + o.eccentricity * Real.cos nu) *
          Real.sqrt (o.mu / o.semi_latus_rectum) * o.eccentricity * Real.sin nu := by
  unfold Orbit.position_nu Orbit.velocity_nu
  rw [orientation_dot, Vector.dot_eq]
  ring

theorem evec_eq (o : Orbit) (nu : ℝ) (hmu : 0 < o.mu) (hl : 0 < o.semi_latus_rectum)
    (hcos : 0 < 1 + o.eccentricity * Real.cos nu) :
    (((o.velocity_nu nu).cross ((o.position_nu nu).cross (o.velocity_nu nu))).mul
        (1 / o.mu)).sub
      ((o.position_nu nu).mul (1 / (o.position_nu nu).norm))
      = o.orientation ⟨o.eccentricity, 0, 0⟩ := by
  have hK2 : Real.sqrt (o.mu / o.semi_latus_rectum) *
      Real.sqrt (o.mu / o.semi_latus_rectum) * o.semi_latus_rectum = o.mu := by
    rw [Real.mul_self_sqrt (div_pos hmu hl).le]
    field_simp
  rw [position_cross_velocity o nu hcos, position_norm o nu hl hcos]
  unfold Orbit.position_nu Orbit.velocity_nu
  rw [orientation_cross, orientation_mul, orientation_mul, orientation_sub]
  congr 1
  simp only [Vector.cross, Vector.mul, Vector.sub, Vector.mk.injEq]
  have hs := Real.sin_sq_add_cos_sq nu
  generalize hKg : Real.sqrt (o.mu / o.semi_latus_rectum) = K at hK2 ⊢
  refine ⟨?_, ?_, by ring⟩
  · field_simp
    linear_combination (o.eccentricity + Real.cos nu) * hK2
  · field_simp
    linear_combination Real.sin nu * hK2



theorem from_state_eccentricity (mu : ℝ) (r v : Vector) (t : ℝ) :
    (Orbit.from_state mu r v t).eccentricity
      = (((v.cross (r.cross v)).mul (1 / mu)).sub (r.mul (1 / r.norm))).norm := rfl

theorem from_state_inclination (mu : ℝ) (r v : Vector) (t : ℝ) :
    (Orbit.from_state mu r v t).inclination
      = Real.arccos ((r.cross v).z / (r.cross v).norm) := rfl

theorem from_state_periapsis (mu : ℝ) (r v : Vector) (t : ℝ) :
    (Orbit.from_state mu r v t).periapsis
      = 1 / (2 / r.norm - v.dot v / mu) *
        (1 - (((v.cross (r.cross v)).mul (1 / mu)).sub (r.mul (1 / r.norm))).norm) := rfl

theorem from_state_epoch (mu : ℝ) (r v : Vector) (t : ℝ) :
    (Orbit.from_state mu r v t).epoch = t := rfl

theorem from_state_mu (mu : ℝ) (r v : Vector) (t : ℝ) :
    (Orbit.from_state mu r v t).mu = mu := rfl

theorem from_state_mean_anomaly_at_epoch (mu : ℝ) (r v : Vector) (t : ℝ) :
    (Orbit.from_state mu r v t).mean_anomaly_at_epoch
      = meanAnomalyFromNu
          ((((v.cross (r.cross v)).mul (1 / mu)).sub (r.mul (1 / r.norm))).norm)
          (trueAnomalyFromState
            ((((v.cross (r.cross v)).mul (1 / mu)).sub (r.mul (1 / r.norm))).norm)
            (((v.cross (r.cross v)).mul (1 / mu)).sub (r.mul (1 / r.norm))) r v) := rfl

/-- The heart of the round trip: feeding `from_state` the exact conic state
at any admissible true anomaly recovers eccentricity, inclination, periapsis
and epoch exactly, and the stored mean anomaly is the inverse anomaly chain
evaluated at that true anomaly. -/
theorem from_state_elements (o : Orbit) (t nu : ℝ)
    (hmu : 0 < o.mu) (hp : 0 < o.periapsis)
    (he0 : 0 < o.eccentricity) (he1 : o.eccentricity ≠ 1)
    (hi0 : 0 ≤ o.inclination) (hipi : o.inclination ≤ Real.pi)
    (hnu1 : -Real.pi < nu) (hnu2 : nu ≤ Real.pi)
    (hcos : 0 < 1 + o.eccentricity * Real.cos nu) :
    (Orbit.from_state o.mu (o.position_nu nu) (o.velocity_nu nu) t).eccentricity
        = o.eccentricity
  ∧ (Orbit.from_state o.mu (o.position_nu nu) (o.velocity_nu nu) t).inclination
        = o.inclination
  ∧ (Orbit.from_state o.mu (o.position_nu nu) (o.velocity_nu nu) t).periapsis
        = o.periapsis
  ∧ (Orbit.from_state o.mu (o.position_nu nu) (o.velocity_nu nu) t).epoch = t
  ∧ (Orbit.from_state o.mu (o.position_nu nu) (o.velocity_nu nu) t).mean_anomaly_at_epoch
        = meanAnomalyFromNu o.eccentricity nu := by
  have he1' : (1:ℝ) - o.eccentricity ≠ 0 := sub_ne_zero.mpr (Ne.symm he1)
  have h1e : (0:ℝ) < 1 + o.eccentricity := by nlinarith
  have hlp : o.semi_latus_rectum = o.periapsis * (1 + o.eccentricity) := by
    unfold Orbit.semi_latus_rectum Orbit.semi_major_axis
    field_simp
    ring
  have hl : 0 < o.semi_latus_rectum := by
    rw [hlp]
    nlinarith
  have hK : 0 < Real.sqrt (o.mu / o.semi_latus_rectum) :=
    Real.sqrt_pos.mpr (div_pos hmu hl)
  have hlK : 0 < o.semi_latus_rectum * Real.sqrt (o.mu / o.semi_latus_rectum) :=
    mul_pos hl hK
  have hr0 : 0 < o.semi_latus_rectum / (1 + o.eccentricity * Real.cos nu) :=
    div_pos hl hcos
  have hev := evec_eq o nu hmu hl hcos
  have hevn : (((((o.velocity_nu nu)).cross ((o.position_nu nu).cross
      (o.velocity_nu nu))).mul (1 / o.mu)).sub
      ((o.position_nu nu).mul (1 / (o.position_nu nu).norm))).norm
      = o.eccentricity := by
    rw [hev, orientation_norm, norm_xaxis _ he0.le]
  have hecc : (Orbit.from_state o.mu (o.position_nu nu) (o.velocity_nu nu) t).eccentricity
      = o.eccentricity := by
    rw [from_state_eccentricity]
    exact hevn
  have hinc : (Orbit.from_state o.mu (o.position_nu nu) (o.velocity_nu nu) t).inclination
      = o.inclination := by
    rw [from_state_inclination, position_cross_velocity o nu hcos,
      orientation_z_component, orientation_norm, norm_zaxis _ hlK.le,
      mul_div_cancel_left₀ _ hlK.ne']
    exact Real.arccos_cos hi0 hipi
  have hperi : (Orbit.from_state o.mu (o.position_nu nu) (o.velocity_nu nu) t).periapsis
      = o.periapsis := by
    rw [from_state_periapsis, hevn, position_norm o nu hl hcos,
      velocity_norm_sq o nu hmu hl]
    have hvis : 2 / (o.semi_latus_rectum / (1 + o.eccentricity * Real.cos nu)) -
        o.mu / o.semi_latus_rectum *
          (1 + 2 * o.eccentricity * Real.cos nu + o.eccentricity ^ 2) / o.mu
        = (1 - o.eccentricity ^ 2) / o.semi_latus_rectum := by
      field_simp
      ring
    rw [hvis, one_div_div, hlp]
    have hee : (1:ℝ) - o.eccentricity ^ 2 ≠ 0 := by
      have : (1:ℝ) - o.eccentricity ^ 2 = (1 - o.eccentricity) * (1 + o.eccentricity) := by
        ring
      rw [this]
      exact mul_ne_zero he1' h1e.ne'
    field_simp
    ring
  have hM0 : (Orbit.from_state o.mu (o.position_nu nu)
      (o.velocity_nu nu) t).mean_anomaly_at_epoch
      = meanAnomalyFromNu o.eccentricity nu := by
    rw [from_state_mean_anomaly_at_epoch, hevn]
    congr 1
    unfold trueAnomalyFromState
    rw [if_neg he0.ne', hev]
    have hdot : (o.orientation ⟨o.eccentricity, 0, 0⟩).dot (o.position_nu nu)
        = o.eccentricity *
          (o.semi_latus_rectum / (1 + o.eccentricity * Real.cos nu)) * Real.cos nu := by
      unfold Orbit.position_nu
      rw [orientation_dot, Vector.dot_eq]
      ring
    have hratio : (o.orientation ⟨o.eccentricity, 0, 0⟩).dot (o.position_nu nu) /
        (o.eccentricity * (o.position_nu nu).norm) = Real.cos nu := by
      rw [hdot, position_norm o nu hl hcos]
      field_simp
    have hpv := position_dot_velocity o nu
    have hsign : ((o.position_nu nu).dot (o.velocity_nu nu) < 0) ↔ Real.sin nu < 0 := by
      rw [hpv]
      have hpos : 0 < o.semi_latus_rectum / (1 + o.eccentricity * Real.cos nu) *
          Real.sqrt (o.mu / o.semi_latus_rectum) * o.eccentricity :=
        mul_pos (mul_pos hr0 hK) he0
      constructor
      · intro h
        nlinarith
      · intro h
        nlinarith
    simp only [hratio, hsign]
    split_ifs with hsn
    · have hnuneg : nu < 0 := by
        by_contra hnn
        have := Real.sin_nonneg_of_nonneg_of_le_pi (not_lt.mp hnn) hnu2
        linarith
      rw [← Real.cos_neg, Real.arccos_cos (by linarith) (by linarith)]
      ring
    · have hnn : 0 ≤ nu := by
        by_contra hneg
        exact hsn (Real.sin_neg_of_neg_of_neg_pi_lt (not_le.mp hneg) hnu1)
      exact Real.arccos_cos hnn hnu2
  exact ⟨hecc, hinc, hperi, rfl, hM0⟩



/-- Claim C1 (spec-modelled): for every valid elliptic (`0 < e < 1`, per the
spec's glossary) or hyperbolic (`e > 1`) orbit and every instant `t` at which
the Kepler solver converges, `from_state(primary, position_t(t),
velocity_t(t), t)` reconstructs the same canonical orbit: periapsis,
eccentricity and inclination are recovered exactly — in particular within
the claimed relative tolerance `1e-6` — and the mean anomaly at any instant
agrees within the Kepler residual `1e-12 ≤ 2^-12` radians up to the whole
revolutions `2*pi*k` that the principal-branch anomaly extraction drops
(the repository's tests compare mean anomalies modulo `2*pi` the same way). -/
theorem from_state_round_trip (o : Orbit) (t tq : ℝ) (r v : Vector)
    (hmu : 0 < o.mu) (hp : 0 < o.periapsis)
    (he0 : 0 < o.eccentricity)
    (hell : o.eccentricity < 1 ∨ 1 < o.eccentricity)
    (hi0 : 0 ≤ o.inclination) (hipi : o.inclination ≤ Real.pi)
    (hr : o.position_t t = some r) (hv : o.velocity_t t = some v) :
    (Orbit.from_state o.mu r v t).periapsis = o.periapsis
  ∧ (Orbit.from_state o.mu r v t).eccentricity = o.eccentricity
  ∧ (Orbit.from_state o.mu r v t).inclination = o.inclination
  ∧ |(Orbit.from_state o.mu r v t).periapsis - o.periapsis|
      ≤ 1 / 10 ^ 6 * o.periapsis
  ∧ |(Orbit.from_state o.mu r v t).eccentricity - o.eccentricity|
      ≤ 1 / 10 ^ 6 * o.eccentricity
  ∧ |(Orbit.from_state o.mu r v t).inclination - o.inclination|
      ≤ 1 / 10 ^ 6 * o.inclination
  ∧ ∃ k : ℤ, |(Orbit.from_state o.mu r v t).mean_anomaly tq
        - o.mean_anomaly tq - 2 * Real.pi * k| ≤ 1 / 2 ^ 12 := by
  have hne1 : o.eccentricity ≠ 1 := by
    rcases hell with h | h
    · exact ne_of_lt h
    · exact ne_of_gt h
  have key : ∃ nu, (-Real.pi < nu ∧ nu ≤ Real.pi)
      ∧ 0 < 1 + o.eccentricity * Real.cos nu
      ∧ r = o.position_nu nu ∧ v = o.velocity_nu nu
      ∧ ∃ k : ℤ, |meanAnomalyFromNu o.eccentricity nu - o.mean_anomaly t
            - 2 * Real.pi * k| ≤ keplerTol := by
    rcases hell with he1 | he1
    · unfold Orbit.position_t Orbit.true_anomaly_t at hr
      unfold Orbit.velocity_t Orbit.true_anomaly_t at hv
      rw [if_pos he1, Option.map_map] at hr hv
      obtain ⟨E, hE, hrE⟩ := Option.map_eq_some'.mp hr
      obtain ⟨E', hE', hvE⟩ := Option.map_eq_some'.mp hv
      rw [hE] at hE'
      have hEE := Option.some.inj hE'
      subst hEE
      refine ⟨nuFromE o.eccentricity E,
        ⟨(nuFromE_range o.eccentricity E he0.le he1).1,
         (nuFromE_range o.eccentricity E he0.le he1).2⟩,
        nuFromE_one_add_pos o.eccentricity E he0.le he1,
        hrE.symm, hvE.symm, ?_⟩
      obtain ⟨k, hk⟩ := meanAnomalyFromNu_elliptic o.eccentricity E he0 he1
      refine ⟨k, ?_⟩
      rw [hk]
      have hres := solveE_resid o.eccentricity (o.mean_anomaly t) E hE
      rw [show E - o.eccentricity * Real.sin E + 2 * Real.pi * k
            - o.mean_anomaly t - 2 * Real.pi * k
          = E - o.eccentricity * Real.sin E - o.mean_anomaly t from by ring]
      exact hres
    · unfold Orbit.position_t Orbit.true_anomaly_t at hr
      unfold Orbit.velocity_t Orbit.true_anomaly_t at hv
      rw [if_neg (not_lt.mpr he1.le), if_pos he1, Option.map_map] at hr hv
      obtain ⟨H, hH, hrH⟩ := Option.map_eq_some'.mp hr
      obtain ⟨H', hH', hvH⟩ := Option.map_eq_some'.mp hv
      rw [hH] at hH'
      have hHH := Option.some.inj hH'
      subst hHH
      refine ⟨nuFromH o.eccentricity H,
        ⟨(nuFromH_range o.eccentricity H he1).1,
         (nuFromH_range o.eccentricity H he1).2⟩,
        nuFromH_one_add_pos o.eccentricity H he1,
        hrH.symm, hvH.symm, ?_⟩
      refine ⟨0, ?_⟩
      rw [meanAnomalyFromNu_hyperbolic o.eccentricity H he1]
      have hres := solveH_resid o.eccentricity (o.mean_anomaly t) H hH
      rw [show o.eccentricity * Real.sinh H - H - o.mean_anomaly t
            - 2 * Real.pi * (0:ℤ)
          = o.eccentricity * Real.sinh H - H - o.mean_anomaly t from by
        push_cast
        ring]
      exact hres
  obtain ⟨nu, ⟨hnu1, hnu2⟩, hcos, hrnu, hvnu, k0, hk0⟩ := key
  subst hrnu
  subst hvnu
  obtain ⟨hecc, hinc, hperi, hepoch, hM0⟩ :=
    from_state_elements o t nu hmu hp he0 hne1 hi0 hipi hnu1 hnu2 hcos
  have hmm : (Orbit.from_state o.mu (o.position_nu nu)
      (o.velocity_nu nu) t).mean_motion = o.mean_motion := by
    unfold Orbit.mean_motion Orbit.semi_major_axis
    rw [hperi, hecc, from_state_mu]
  have hman : (Orbit.from_state o.mu (o.position_nu nu)
        (o.velocity_nu nu) t).mean_anomaly tq - o.mean_anomaly tq
      = meanAnomalyFromNu o.eccentricity nu - o.mean_anomaly t := by
    unfold Orbit.mean_anomaly
    rw [hM0, hmm, hepoch]
    ring
  refine ⟨hperi, hecc, hinc, ?_, ?_, ?_, ⟨k0, ?_⟩⟩
  · rw [hperi, sub_self, abs_zero]
    nlinarith
  · rw [hecc, sub_self, abs_zero]
    nlinarith
  · rw [hinc, sub_self, abs_zero]
    nlinarith
  · have heq : (Orbit.from_state o.mu (o.position_nu nu)
          (o.velocity_nu nu) t).mean_anomaly tq - o.mean_anomaly tq
          - 2 * Real.pi * k0
        = meanAnomalyFromNu o.eccentricity nu - o.mean_anomaly t
          - 2 * Real.pi * k0 := by linarith [hman]
    rw [heq]
    exact le_trans hk0 (by norm_num [keplerTol])



/-- Witness for C1 at the orbit `mu = 1`, `periapsis = 1`, `e = 1/2`, all
angles and epochs zero, evaluated at `t = 0` (the Newton solver converges at
its seed there). -/
theorem from_state_round_trip_witness :
    ((0:ℝ) < (⟨1, 1, 1/2, 0, 0, 0, 0, 0⟩ : Orbit).mu)
  ∧ ((0:ℝ) < (⟨1, 1, 1/2, 0, 0, 0, 0, 0⟩ : Orbit).periapsis)
  ∧ ((0:ℝ) < (⟨1, 1, 1/2, 0, 0, 0, 0, 0⟩ : Orbit).eccentricity)
  ∧ ((⟨1, 1, 1/2, 0, 0, 0, 0, 0⟩ : Orbit).position_t 0 = some ⟨1, 0, 0⟩)
  ∧ ((⟨1, 1, 1/2, 0, 0, 0, 0, 0⟩ : Orbit).velocity_t 0
        = some ⟨0, Real.sqrt (2/3) * (3/2), 0⟩)
  ∧ (Orbit.from_state (⟨1, 1, 1/2, 0, 0, 0, 0, 0⟩ : Orbit).mu ⟨1, 0, 0⟩
        ⟨0, Real.sqrt (2/3) * (3/2), 0⟩ 0).periapsis
      = (⟨1, 1, 1/2, 0, 0, 0, 0, 0⟩ : Orbit).periapsis
  ∧ (Orbit.from_state (⟨1, 1, 1/2, 0, 0, 0, 0, 0⟩ : Orbit).mu ⟨1, 0, 0⟩
        ⟨0, Real.sqrt (2/3) * (3/2), 0⟩ 0).eccentricity
      = (⟨1, 1, 1/2, 0, 0, 0, 0, 0⟩ : Orbit).eccentricity
  ∧ ∃ k : ℤ, |(Orbit.from_state (⟨1, 1, 1/2, 0, 0, 0, 0, 0⟩ : Orbit).mu ⟨1, 0, 0⟩
        ⟨0, Real.sqrt (2/3) * (3/2), 0⟩ 0).mean_anomaly 0
      - (⟨1, 1, 1/2, 0, 0, 0, 0, 0⟩ : Orbit).mean_anomaly 0
      - 2 * Real.pi * k| ≤ 1 / 2 ^ 12 := by
  have h100 : (100:ℕ) = 99 + 1 := rfl
  have hpos : (⟨1, 1, 1/2, 0, 0, 0, 0, 0⟩ : Orbit).position_t 0
      = some ⟨1, 0, 0⟩ := by
    norm_num [Orbit.position_t, Orbit.true_anomaly_t, Orbit.mean_anomaly,
      Orbit.mean_motion, solveE, h100, solveLoopE, keplerTol, nuFromE,
      Real.sin_zero, Real.cos_zero, Real.arccos_one, Orbit.position_nu,
      Orbit.orientation, rotZ, rotX, Orbit.semi_latus_rectum,
      Orbit.semi_major_axis]
  have hvel : (⟨1, 1, 1/2, 0, 0, 0, 0, 0⟩ : Orbit).velocity_t 0
      = some ⟨0, Real.sqrt (2/3) * (3/2), 0⟩ := by
    norm_num [Orbit.velocity_t, Orbit.true_anomaly_t, Orbit.mean_anomaly,
      Orbit.mean_motion, solveE, h100, solveLoopE, keplerTol, nuFromE,
      Real.sin_zero, Real.cos_zero, Real.arccos_one, Orbit.velocity_nu,
      Orbit.orientation, rotZ, rotX, Orbit.semi_latus_rectum,
      Orbit.semi_major_axis]
  have main := from_state_round_trip ⟨1, 1, 1/2, 0, 0, 0, 0, 0⟩ 0 0 ⟨1, 0, 0⟩
      ⟨0, Real.sqrt (2/3) * (3/2), 0⟩ (by norm_num) (by norm_num) (by norm_num)
      (Or.inl (by norm_num)) le_rfl Real.pi_nonneg hpos hvel
  exact ⟨by norm_num, by norm_num, by norm_num, hpos, hvel, main.1, main.2.1,
    main.2.2.2.2.2.2⟩

end Spyce
